import Mathlib

/-!
# Verification of the `write-json` streaming JSON encoder

Shallow embedding of `src/lib.rs`: the four value encoders (`encode_null`,
`encode_bool`, `encode_number`, `encode_str` with its fast path and
`slow_path`), and the scoped `Object` / `Array` writers with their `first`
comma flag.  Rust `String` is modelled by Lean `String` (a list of Unicode
scalar values); `s.bytes()` is modelled by an explicit UTF-8 encoder.
-/

namespace WriteJson

/-- UTF-8 encoding of one Unicode scalar value, as the list of its byte
values (each `< 256`).  Models Rust's `str::bytes` iteration, which yields
the UTF-8 bytes of the string. -/
def utf8Bytes (c : Char) : List Nat :=
  let n := c.toNat
  if n < 0x80 then [n]
  else if n < 0x800 then
    [0xC0 + n / 64, 0x80 + n % 64]
  else if n < 0x10000 then
    [0xE0 + n / 4096, 0x80 + (n / 64) % 64, 0x80 + n % 64]
  else
    [0xF0 + n / 262144, 0x80 + (n / 4096) % 64, 0x80 + (n / 64) % 64, 0x80 + n % 64]

/-- The UTF-8 byte sequence of a string: `s.bytes()` in the source. -/
def utf8Str (s : String) : List Nat :=
  s.data.foldr (fun c bs => utf8Bytes c ++ bs) []

/-- The fast-path byte predicate of `encode_str`:
`32 <= b && b != b'"' && b != b'\\' && b < 128` (note `< 128`, so byte
`0x7F` passes the test). -/
def fastByte (b : Nat) : Bool :=
  decide (32 ≤ b) && b != 34 && b != 92 && decide (b < 128)

/-- `fn hex(b: u8) -> char`: indexes `b & 0xF` into `b"0123456789ABCDEF"`. -/
def hex (b : Nat) : Char :=
  "0123456789ABCDEF".data.getD (b % 16) '0'

/-- `fn push_escape(buf: &mut String, c: char)`: pushes a backslash then `c`. -/
def push_escape (buf : String) (c : Char) : String :=
  (buf.push '\\').push c

/-- One iteration of the `slow_path` loop body: `let b = c as u8;` truncates
the scalar value to its low byte, then the `match b` arms in source order.
In the `\u00XX` arm the source pushes `hex(b & 0xF)` first and `hex(b >> 4)`
second (low nibble before high nibble). -/
def escape_char (buf : String) (c : Char) : String :=
  let b := c.toNat % 256
  if b = 92 ∨ b = 34 then push_escape buf c
  else if b = 10 then push_escape buf 'n'
  else if b = 13 then push_escape buf 'r'
  else if b = 9 then push_escape buf 't'
  else if b ≤ 0x1F ∨ (0x7F ≤ b ∧ b ≤ 0x9F) then
    (((push_escape buf 'u') ++ "00").push (hex (b % 16))).push (hex (b / 16))
  else buf.push c

/-- `fn slow_path(buf: &mut String, s: &str)`: `for c in s.chars() { ... }`. -/
def slow_path (buf : String) (s : String) : String :=
  s.data.foldl escape_char buf

/-- `fn encode_str(buf: &mut String, s: &str)`: push `"`. If every UTF-8 byte
satisfies the fast-path predicate, push the string verbatim, else run
`slow_path`; finally push the closing `"`.  (The `buf.reserve` call is a
capacity hint with no observable effect on contents.) -/
def encode_str (buf : String) (s : String) : String :=
  let buf := buf.push '\"'
  let buf := if (utf8Str s).all fastByte then buf ++ s else slow_path buf s
  buf.push '\"'

/-- `fn encode_null`: appends the four characters `null`. -/
def encode_null (buf : String) : String :=
  buf ++ "null"

/-- `fn encode_bool`: appends `true` or `false`. -/
def encode_bool (buf : String) (value : Bool) : String :=
  buf ++ (if value then "true" else "false")

/-- Models Rust std's `impl fmt::Write for String`, used by
`write!(buf, "...", number)` inside `encode_number`: `write_str` appends to
the string and always returns `Ok(())`; the error constructor exists in the
`fmt::Result` type but is never produced when the sink is an in-memory
`String`.  (Std-library code, not part of this repository.) -/
def fmt_write (buf : String) (rendered : String) : Except Unit String :=
  Except.ok (buf ++ rendered)

/-- `fn encode_number(buf: &mut String, number: f64)`.
Modelled from the spec: the f64 argument is represented by its host textual
rendering, because the formatter the source delegates to (Rust std's default
`Display` for `f64`, the shortest round-trippable decimal — the spec pins
`92.0 ↦ "92"`) is std-library code not present in this repository.
`let _ = write!(buf, "...", number)` discards the `fmt::Result`; the
`error` branch leaves the buffer as the write left it (here: untouched). -/
def encode_number (buf : String) (rendered : String) : String :=
  match fmt_write buf rendered with
  | Except.ok b => b
  | Except.error _ => buf

/-- The state of a scoped writer: the exclusively borrowed buffer and the
`first` flag (`true` while no entry has been written yet). Shared shape of
`struct Object<'a>` and `struct Array<'a>`. -/
structure Writer where
  buf : String
  first : Bool
  deriving DecidableEq

namespace Object

/-- `Object::new`: pushes `{` and starts with `first = true`. -/
def new (buf : String) : Writer :=
  { buf := buf.push '{', first := true }

/-- `Object::key`: pushes `,` unless this is the first entry, clears `first`,
emits the escaped key and `:`. -/
def key (w : Writer) (k : String) : Writer :=
  let buf := if w.first then w.buf else w.buf.push ','
  { buf := (encode_str buf k).push ':', first := false }

/-- `Object::field`: `key` followed by the value encoder. The `enc` argument
is the source's `enc` closure already applied to its value, i.e. the
buffer-to-buffer action of one value encoder. -/
def field (w : Writer) (k : String) (enc : String → String) : Writer :=
  let w := key w k
  { w with buf := enc w.buf }

/-- `impl Drop for Object`: pushes the single `}` when the scope ends. -/
def close (w : Writer) : String :=
  w.buf.push '}'

/-- A sequence of `field` calls, each entry given as key and the text its
value encoder appends. -/
def fields (w : Writer) (entries : List (String × String)) : Writer :=
  entries.foldl (fun w e => field w e.1 (· ++ e.2)) w

end Object

namespace Array

/-- `Array::new`: pushes `[` and starts with `first = true`. -/
def new (buf : String) : Writer :=
  { buf := buf.push '[', first := true }

/-- `Array::comma`: pushes `,` unless this is the first entry, clears `first`. -/
def comma (w : Writer) : Writer :=
  { buf := if w.first then w.buf else w.buf.push ',', first := false }

/-- `Array::element`: `comma` followed by the value encoder. -/
def element (w : Writer) (enc : String → String) : Writer :=
  let w := comma w
  { w with buf := enc w.buf }

/-- `impl Drop for Array`: pushes the single `]` when the scope ends. -/
def close (w : Writer) : String :=
  w.buf.push ']'

/-- A sequence of `element` calls, each entry given as the text its value
encoder appends. -/
def elements (w : Writer) (entries : List String) : Writer :=
  entries.foldl (fun w e => element w (· ++ e)) w

end Array

/-- Comma-separated join: the text between the brackets of a scope holding
the given entries. -/
def sepJoin : List String → String
  | [] => ""
  | [e] => e
  | e :: es => e ++ "," ++ sepJoin es

/-- Join of the non-first entries: each is preceded by its comma separator. -/
def commaJoin : List String → String
  | [] => ""
  | e :: es => "," ++ e ++ commaJoin es

/-- The text one object entry contributes after its separator: escaped key,
colon, value text. -/
def entryText (kv : String × String) : String :=
  encode_str "" kv.1 ++ ":" ++ kv.2

/-! ## A conformant JSON string parser (for the round-trip claim)

Modelled from the spec: the spec's round-trip property is stated against "a
conformant JSON string parser", which is not part of this repository; the
decoder below follows RFC 8259 §7 (quoted string, the named escapes,
`\uXXXX` with surrogate pairs, raw control characters below 0x20 rejected).
-/

/-- Value of one hexadecimal digit, case-insensitive. -/
def hexVal (c : Char) : Option Nat :=
  if '0' ≤ c ∧ c ≤ '9' then some (c.toNat - 48)
  else if 'A' ≤ c ∧ c ≤ 'F' then some (c.toNat - 55)
  else if 'a' ≤ c ∧ c ≤ 'f' then some (c.toNat - 87)
  else none

/-- Value of a four-hex-digit escape payload. -/
def hex4 (a b c d : Char) : Option Nat := do
  let va ← hexVal a
  let vb ← hexVal b
  let vc ← hexVal c
  let vd ← hexVal d
  some (((va * 16 + vb) * 16 + vc) * 16 + vd)

/-- Parses the body of a JSON string literal after the opening quote,
returning the decoded characters and the input remaining after the closing
quote. -/
def parseStringBody : List Char → Option (List Char × List Char)
  | [] => none
  | '\"' :: rest => some ([], rest)
  | '\\' :: 'u' :: a :: b :: c :: d :: rest => do
    let n ← hex4 a b c d
    if 0xD800 ≤ n ∧ n ≤ 0xDBFF then
      match rest with
      | '\\' :: 'u' :: e :: f :: g :: h :: rest2 => do
        let m ← hex4 e f g h
        if 0xDC00 ≤ m ∧ m ≤ 0xDFFF then do
          let cp := 0x10000 + (n - 0xD800) * 0x400 + (m - 0xDC00)
          let (cs, r) ← parseStringBody rest2
          some (Char.ofNat cp :: cs, r)
        else none
      | _ => none
    else if 0xDC00 ≤ n ∧ n ≤ 0xDFFF then none
    else do
      let (cs, r) ← parseStringBody rest
      some (Char.ofNat n :: cs, r)
  | '\\' :: e :: rest => do
    let c ← match e with
      | '\"' => some '\"'
      | '\\' => some '\\'
      | '/' => some '/'
      | 'b' => some (Char.ofNat 8)
      | 'f' => some (Char.ofNat 12)
      | 'n' => some '\n'
      | 'r' => some '\r'
      | 't' => some '\t'
      | _ => none
    let (cs, r) ← parseStringBody rest
    some (c :: cs, r)
  | c :: rest =>
    if c.toNat < 0x20 then none
    else do
      let (cs, r) ← parseStringBody rest
      some (c :: cs, r)

/-- Parses an entire input as exactly one JSON string literal. -/
def parseJsonString (s : String) : Option String :=
  match s.data with
  | '\"' :: rest =>
    match parseStringBody rest with
    | some (cs, []) => some ⟨cs⟩
    | _ => none
  | _ => none

/-- The call sequence of the crate's doc example and of the `smoke` test:
`object(&mut buf)`, then `obj.string("name","Peter")`,
`obj.number("favorite number", 92.0)` (the f64 is represented by its
spec-pinned rendering `"92"`), the nested `obj.array("films")` with two
string elements, `obj.null("suitcase")`, and the two scope ends. While the
nested array writer is alive it exclusively holds the buffer; the parent
resumes with its own `first` flag afterwards. -/
def scenario1 : String :=
  let o := Object.new ""
  let o := Object.field o "name" (fun b => encode_str b "Peter")
  let o := Object.field o "favorite number" (fun b => encode_number b "92")
  let o2 := Object.key o "films"
  let a := Array.new o2.buf
  let a := Array.element a (fun b => encode_str b "Drowning By Numbers")
  let a := Array.element a (fun b => encode_str b "A Zed & Two Noughts")
  let o3 : Writer := { buf := Array.close a, first := o2.first }
  let o4 := Object.field o3 "suitcase" (fun b => encode_null b)
  Object.close o4

/-! ## Helper lemmas -/

theorem string_data_ext {a b : String} (h : a.data = b.data) : a = b := by
  cases a; cases b; exact congrArg String.mk h

theorem append_data (a b : String) : (a ++ b).data = a.data ++ b.data := rfl

theorem push_data (a : String) (c : Char) : (a.push c).data = a.data ++ [c] := rfl

/-- `escape_char` appends text that does not depend on the buffer. -/
theorem escape_char_frame (buf : String) (c : Char) :
    escape_char buf c = buf ++ escape_char "" c := by
  apply string_data_ext
  simp only [escape_char, push_escape]
  repeat' split
  all_goals simp [append_data, push_data]

/-- `slow_path` appends text that does not depend on the buffer. -/
theorem slow_path_frame (buf s : String) :
    slow_path buf s = buf ++ slow_path "" s := by
  suffices h : ∀ (l : List Char) (b : String),
      l.foldl escape_char b = b ++ l.foldl escape_char "" by
    simpa [slow_path] using h s.data buf
  intro l
  induction l with
  | nil => intro b; apply string_data_ext; simp
  | cons c cs ih =>
    intro b
    simp only [List.foldl_cons]
    rw [ih (escape_char b c), ih (escape_char "" c), escape_char_frame b c]
    apply string_data_ext
    simp [append_data]

/-- `encode_str` appends text that does not depend on the buffer. -/
theorem encode_str_frame (buf s : String) :
    encode_str buf s = buf ++ encode_str "" s := by
  unfold encode_str
  by_cases h : (utf8Str s).all fastByte = true
  · simp only [h, if_true]
    apply string_data_ext
    simp [append_data, push_data]
  · simp only [h, if_false]
    rw [slow_path_frame (buf.push '\"') s, slow_path_frame ("".push '\"') s]
    apply string_data_ext
    simp [append_data, push_data]

theorem writer_ext {b1 b2 : String} {f1 f2 : Bool}
    (hb : b1.data = b2.data) (hf : f1 = f2) :
    Writer.mk b1 f1 = Writer.mk b2 f2 := by
  cases string_data_ext hb; cases hf; rfl

theorem sepJoin_cons (e : String) (es : List String) :
    sepJoin (e :: es) = e ++ commaJoin es := by
  induction es generalizing e with
  | nil => apply string_data_ext; simp [sepJoin, commaJoin, append_data]
  | cons f fs ih =>
    apply string_data_ext
    simp only [sepJoin, commaJoin, append_data, ih f]
    simp [append_data]

theorem element_true (buf e : String) :
    Array.element ⟨buf, true⟩ (· ++ e) = ⟨buf ++ e, false⟩ := rfl

theorem element_false (buf e : String) :
    Array.element ⟨buf, false⟩ (· ++ e) = ⟨buf.push ',' ++ e, false⟩ := rfl

theorem field_true (buf k v : String) :
    Object.field ⟨buf, true⟩ k (· ++ v) = ⟨buf ++ entryText (k, v), false⟩ := by
  apply writer_ext _ rfl
  show ((encode_str buf k).push ':' ++ v).data = (buf ++ entryText (k, v)).data
  rw [encode_str_frame]
  simp [entryText, append_data, push_data]

theorem field_false (buf k v : String) :
    Object.field ⟨buf, false⟩ k (· ++ v) = ⟨buf.push ',' ++ entryText (k, v), false⟩ := by
  apply writer_ext _ rfl
  show ((encode_str (buf.push ',') k).push ':' ++ v).data
      = (buf.push ',' ++ entryText (k, v)).data
  rw [encode_str_frame]
  simp [entryText, append_data, push_data]

theorem elements_of_first_false (es : List String) :
    ∀ buf : String, Array.elements ⟨buf, false⟩ es = ⟨buf ++ commaJoin es, false⟩ := by
  induction es with
  | nil =>
    intro buf
    apply writer_ext _ rfl
    simp [Array.elements, commaJoin, append_data]
  | cons e es ih =>
    intro buf
    show Array.elements (Array.element ⟨buf, false⟩ (· ++ e)) es = _
    rw [element_false, ih]
    apply writer_ext _ rfl
    simp [commaJoin, append_data, push_data]

theorem elements_first_true (es : List String) (buf : String) :
    Array.elements ⟨buf, true⟩ es = ⟨buf ++ sepJoin es, es.isEmpty⟩ := by
  cases es with
  | nil =>
    apply writer_ext _ rfl
    simp [Array.elements, sepJoin, append_data]
  | cons e es =>
    show Array.elements (Array.element ⟨buf, true⟩ (· ++ e)) es = _
    rw [element_true, elements_of_first_false es (buf ++ e)]
    apply writer_ext _ rfl
    rw [sepJoin_cons]
    simp [append_data]

theorem fields_of_first_false (kvs : List (String × String)) :
    ∀ buf : String,
      Object.fields ⟨buf, false⟩ kvs = ⟨buf ++ commaJoin (kvs.map entryText), false⟩ := by
  induction kvs with
  | nil =>
    intro buf
    apply writer_ext _ rfl
    simp [Object.fields, commaJoin, append_data]
  | cons kv kvs ih =>
    intro buf
    obtain ⟨k, v⟩ := kv
    show Object.fields (Object.field ⟨buf, false⟩ k (· ++ v)) kvs = _
    rw [field_false, ih]
    apply writer_ext _ rfl
    simp [commaJoin, append_data, push_data]

theorem fields_first_true (kvs : List (String × String)) (buf : String) :
    Object.fields ⟨buf, true⟩ kvs = ⟨buf ++ sepJoin (kvs.map entryText), kvs.isEmpty⟩ := by
  cases kvs with
  | nil =>
    apply writer_ext _ rfl
    simp [Object.fields, sepJoin, append_data]
  | cons kv kvs =>
    obtain ⟨k, v⟩ := kv
    show Object.fields (Object.field ⟨buf, true⟩ k (· ++ v)) kvs = _
    rw [field_true, fields_of_first_false kvs (buf ++ entryText (k, v))]
    apply writer_ext _ rfl
    rw [List.map_cons, sepJoin_cons]
    simp [append_data]

theorem empty_data : ("" : String).data = [] := rfl

theorem sepJoin_comma_count (es : List String) :
    (sepJoin es).data.count ','
      = (es.map (fun e => e.data.count ',')).sum + (es.length - 1) := by
  induction es with
  | nil => simp [sepJoin]
  | cons e es ih =>
    cases es with
    | nil => simp [sepJoin]
    | cons f fs =>
      simp only [sepJoin, append_data, List.count_append, ih, List.map_cons, List.sum_cons,
        List.length_cons]
      have h1 : (("," : String).data.count ',') = 1 := by decide
      rw [h1]
      omega

/-! ## The claims -/

/-- C1: the spec says a control character outside the named escapes is
rendered `\u00XX` with the two hex digits high nibble first, and that the
scenario-4 input renders as `"\u0000\u0007\u001F ~\u007F\u0080\u009F!"`.
The code pushes `hex(b & 0xF)` before `hex(b >> 4)`, i.e. the LOW nibble
first, so the scenario-4 input renders as
`"\u0000\u0070\u00F1 ~\u00F7\u0008\u00F9!"` instead; the repository's own
`string_escaping` test asserts the spec's (high-nibble-first) output. -/
theorem encode_str_hex_digits_reversed :
    encode_str "" "\x00\x07\x1F ~\x7F\u0080\u009F!"
      = "\"\\u0000\\u0070\\u00F1 ~\\u00F7\\u0008\\u00F9!\""
    ∧ encode_str "" "\x07" = "\"\\u0070\""
    ∧ encode_str "" "\x07" ≠ "\"\\u0007\"" := by decide

/-- C2: the spec says every character with scalar value above 0xFF is
appended verbatim and only scalar values in 0x00–0x1F and 0x7F–0x9F trigger
escaping. The code's `let b = c as u8` truncates the scalar value to its
low byte, so U+010A (`Ċ`, low byte 0x0A) is rendered as the escape `\n`
rather than verbatim; the repository's own `string_escaping` test asserts
the verbatim output `"Ċ"`. -/
theorem encode_str_truncates_scalar_to_byte :
    encode_str "" "Ċ" = "\"\\n\"" ∧ encode_str "" "Ċ" ≠ "\"Ċ\"" := by decide

/-- C3: the spec says the fast path (taken when every encoded byte is in
32–127 minus `"` and `\`) yields exactly what the slow path would produce.
The fast-path predicate is `32 <= b && b != 34 && b != 92 && b < 128`, which
admits byte 0x7F (DEL); the slow path escapes 0x7F. On `"\x7F!"` the fast
path is taken and appends DEL verbatim, while the slow path on the same
string produces an escape — the two paths disagree, and the repository's
own `string_escaping` test asserts the escaped output `"\u007F!"` for this
very input. -/
theorem fast_path_disagrees_with_slow_path_on_del :
    encode_str "" "\x7F!" = "\"\x7F!\""
    ∧ (slow_path ("".push '\"') "\x7F!").push '\"' = "\"\\u00F7!\""
    ∧ encode_str "" "\x7F!" ≠ (slow_path ("".push '\"') "\x7F!").push '\"' := by decide

/-- C4: the spec says parsing the encoder's output with a conformant JSON
string parser returns the original input, for all inputs. Because the code
emits the hex digits of a `\u00XX` escape low nibble first, encoding
`"\x07"` yields `"\u0070"`, which every conformant parser decodes to `"p"`,
not to the original `"\x07"`. -/
theorem decode_of_encode_not_identity :
    parseJsonString (encode_str "" "\x07") = some "p"
    ∧ parseJsonString (encode_str "" "\x07") ≠ some "\x07" := by decide

/-- C5: for every object or array writer and every sequence of entry
operations, a comma separator precedes every entry except the first, and
entries appear in call order: the buffer after N entries is the old buffer,
the opening bracket, then the comma-separated join of the entry texts in
call order; and that join contains exactly N−1 depth-1 commas (commas
beyond those inside the entry texts themselves). -/
theorem comma_before_every_entry_except_first :
    (∀ (buf : String) (es : List String),
        (Array.elements (Array.new buf) es).buf = buf ++ "[" ++ sepJoin es)
  ∧ (∀ (buf : String) (kvs : List (String × String)),
        (Object.fields (Object.new buf) kvs).buf = buf ++ "\x7b" ++ sepJoin (kvs.map entryText))
  ∧ (∀ es : List String,
        (sepJoin es).data.count ','
          = (es.map (fun e => e.data.count ',')).sum + (es.length - 1)) := by
  refine ⟨fun buf es => ?_, fun buf kvs => ?_, sepJoin_comma_count⟩
  · show (Array.elements ⟨buf.push '[', true⟩ es).buf = _
    rw [elements_first_true]
    apply string_data_ext
    simp [append_data, push_data]
  · show (Object.fields ⟨buf.push '{', true⟩ kvs).buf = _
    rw [fields_first_true]
    apply string_data_ext
    simp [append_data, push_data]

/-- C6: the end of a writer's scope (`Drop`) appends exactly one closing
bracket of the writer's kind, whatever the number of entries: the complete
scope output is the old buffer, the opening bracket, the entries, and a
single closing bracket; an object opened and immediately closed yields
`{}`, an empty array `[]`. (That the scope end runs exactly once per
writer instance on every exit path, including unwind, is Rust's `Drop`
guarantee, which the lifecycle model assumes.) -/
theorem scope_end_appends_one_closing_bracket :
    (∀ buf : String, Object.close (Object.new buf) = buf ++ "\x7b\x7d")
  ∧ (∀ buf : String, Array.close (Array.new buf) = buf ++ "[]")
  ∧ (∀ (buf : String) (es : List String),
      Array.close (Array.elements (Array.new buf) es) = buf ++ "[" ++ sepJoin es ++ "]")
  ∧ (∀ (buf : String) (kvs : List (String × String)),
      Object.close (Object.fields (Object.new buf) kvs)
        = buf ++ "\x7b" ++ sepJoin (kvs.map entryText) ++ "\x7d") := by
  refine ⟨fun buf => ?_, fun buf => ?_, fun buf es => ?_, fun buf kvs => ?_⟩
  · apply string_data_ext; simp [Object.close, Object.new, append_data, push_data]
  · apply string_data_ext; simp [Array.close, Array.new, append_data, push_data]
  · show Array.close (Array.elements ⟨buf.push '[', true⟩ es) = _
    rw [elements_first_true]
    apply string_data_ext
    simp [Array.close, append_data, push_data]
  · show Object.close (Object.fields ⟨buf.push '{', true⟩ kvs) = _
    rw [fields_first_true]
    apply string_data_ext
    simp [Object.close, append_data, push_data]

/-- C7: the doc-example call sequence — string field `name`→`Peter`, number
field `favorite number`→92.0 (rendered `92`), array field `films` with the
two film titles, null field `suitcase` — produces exactly the single-line
document of the spec, with no inserted whitespace. -/
theorem doc_example_output :
    scenario1
      = "\x7b\"name\":\"Peter\",\"favorite number\":92,\"films\":[\"Drowning By Numbers\",\"A Zed & Two Noughts\"],\"suitcase\":null\x7d" := by
  decide

/-- C8: every value encoder only appends: for every initial buffer the
result is the initial contents followed by the text the encoder produces on
an empty buffer — so nothing is cleared, truncated, or overwritten, and the
appended text does not depend on the existing contents. -/
theorem value_encoders_append_only :
    ∀ buf : String,
      encode_null buf = buf ++ encode_null ""
    ∧ (∀ v : Bool, encode_bool buf v = buf ++ encode_bool "" v)
    ∧ (∀ r : String, encode_number buf r = buf ++ encode_number "" r)
    ∧ (∀ s : String, encode_str buf s = buf ++ encode_str "" s) := by
  intro buf
  refine ⟨?_, fun v => ?_, fun r => ?_, fun s => encode_str_frame buf s⟩
  · apply string_data_ext; simp [encode_null, append_data, empty_data]
  · apply string_data_ext; cases v <;> simp [encode_bool, append_data, empty_data]
  · apply string_data_ext; simp [encode_number, fmt_write, append_data, empty_data]

/-- C9: the `first` flag of a writer is true exactly while no entry has been
written: it is true at construction, every entry operation (key, field,
comma, element) leaves it false, and after a sequence of entry operations it
is true iff the sequence was empty — so no operation ever resets it to
true. -/
theorem first_flag_iff_no_entry_written :
    (∀ buf : String, (Object.new buf).first = true ∧ (Array.new buf).first = true)
  ∧ (∀ (w : Writer) (k : String) (enc : String → String),
      (Object.key w k).first = false ∧ (Object.field w k enc).first = false)
  ∧ (∀ (w : Writer) (enc : String → String),
      (Array.comma w).first = false ∧ (Array.element w enc).first = false)
  ∧ (∀ (buf : String) (es : List String),
      ((Array.elements (Array.new buf) es).first = true ↔ es = []))
  ∧ (∀ (buf : String) (kvs : List (String × String)),
      ((Object.fields (Object.new buf) kvs).first = true ↔ kvs = [])) := by
  refine ⟨fun buf => ⟨rfl, rfl⟩, fun w k enc => ⟨rfl, rfl⟩, fun w enc => ⟨rfl, rfl⟩,
    fun buf es => ?_, fun buf kvs => ?_⟩
  · show ((Array.elements ⟨buf.push '[', true⟩ es).first = true ↔ es = [])
    rw [elements_first_true]
    simp
  · show ((Object.fields ⟨buf.push '{', true⟩ kvs).first = true ↔ kvs = [])
    rw [fields_first_true]
    simp

/-- C10: number encoding never fails: writing the rendered number into the
in-memory growable string always returns `Ok`, so the `fmt::Result` that
`encode_number` discards is always `Ok`, the error branch is unreachable,
and the rendering is always appended. -/
theorem encode_number_never_fails :
    ∀ (buf rendered : String),
      fmt_write buf rendered = Except.ok (buf ++ rendered)
    ∧ encode_number buf rendered = buf ++ rendered :=
  fun _ _ => ⟨rfl, rfl⟩

end WriteJson
